import Mathlib

/-!
Verification of the WhatsApp bulk-message sender (`src/app.py`).

Strings are embedded as `List Char` (matching Python's character-sequence
semantics for the operations used by the program: `replace`, `split`,
`strip`, `isdigit`, `startswith`, slicing-free indexing).  Machine-level
unicode classes (`str.isdigit`, `str.isspace`) are restricted to their
ASCII parts, which is exact for every input class the program targets
(phone digits and ASCII separators).
-/

namespace WABulk

/-- Program strings, embedded as character lists. -/
abbrev Str := List Char

/-- Coerce a Lean string literal to the embedding. -/
def str (s : String) : Str := s.data

/-- Python `s.isdigit()` (ASCII fragment): nonempty and all digits.
Note `"".isdigit()` is `False` in Python. -/
def pyIsDigit (s : Str) : Bool := !s.isEmpty && s.all Char.isDigit

/-- Python `s.replace('+', '')`: drop every `'+'` character. -/
def stripPlus (s : Str) : Str := s.filter (fun c => c ≠ '+')

/-- Python `s.startswith('+')`. -/
def startsWithPlus : Str → Bool
  | [] => false
  | c :: _ => c = '+'

/-- From `search_contact` line 136 / `add_phone` line 664 / `add_bulk_phones`
line 630: a candidate is treated as a phone number when it is digit-only
after removing `'+'` characters. -/
def isPhone (s : Str) : Bool := pyIsDigit (stripPlus s)

/-- Phone normalization, `app.py` lines 140-143 (same logic at lines
634-636 and 668-670): prepend `'+'` exactly when the identifier is longer
than 7 characters and does not already start with `'+'`. -/
def formatPhone (s : Str) : Str :=
  if s.length > 7 ∧ ¬ startsWithPlus s then '+' :: s else s

/-! ### Splitting, Python style

`splitP p s` is Python `s.split(sep)` for a one-character separator class
`p`: it keeps empty pieces (`"a,,b".split(',') == ['a','','b']`,
`"".split(',') == ['']`).  `words p s` is Python `s.split()` with
whitespace class `p`: empty pieces are dropped. -/

/-- Python `s.split(sep)` semantics over a separator predicate. -/
def splitP (p : Char → Bool) : Str → List Str
  | [] => [[]]
  | c :: cs =>
    if p c then [] :: splitP p cs
    else
      match splitP p cs with
      | [] => [[c]]
      | t :: ts => (c :: t) :: ts

/-- Python `s.split()` semantics (split and drop empty pieces). -/
def words (p : Char → Bool) (s : Str) : List Str :=
  (splitP p s).filter (fun t => !t.isEmpty)

theorem splitP_ne_nil (p : Char → Bool) (s : Str) : splitP p s ≠ [] := by
  cases s with
  | nil => simp [splitP]
  | cons c cs =>
    by_cases h : p c = true
    · simp [splitP, h]
    · cases hcs : splitP p cs with
      | nil => simp [splitP, h, hcs]
      | cons t ts => simp [splitP, h, hcs]

theorem splitP_cons_pos {p : Char → Bool} {c : Char} (h : p c = true) (cs : Str) :
    splitP p (c :: cs) = [] :: splitP p cs := by
  simp [splitP, h]

theorem splitP_cons_neg {p : Char → Bool} {c : Char} (h : p c = false) {cs t : Str}
    {ts : List Str} (hcs : splitP p cs = t :: ts) :
    splitP p (c :: cs) = (c :: t) :: ts := by
  simp [splitP, h, hcs]

/-- The first piece of a split is the longest separator-free front. -/
theorem splitP_head (p : Char → Bool) (s : Str) :
    (splitP p s).headD [] = s.takeWhile (fun c => !p c) := by
  induction s with
  | nil => simp [splitP]
  | cons c cs ih =>
    by_cases h : p c = true
    · simp [splitP_cons_pos h, List.takeWhile_cons, h]
    · have h' : p c = false := by simpa using h
      cases hcs : splitP p cs with
      | nil => exact absurd hcs (splitP_ne_nil p cs)
      | cons t ts =>
        rw [splitP_cons_neg h' hcs]
        simp only [hcs, List.headD_cons] at ih
        simp [List.takeWhile_cons, h', ih]

/-- Splitting an explicit separator occurrence is compositional. -/
theorem splitP_append_sep {p : Char → Bool} {d : Char} (hd : p d = true)
    (xs ys : Str) : splitP p (xs ++ d :: ys) = splitP p xs ++ splitP p ys := by
  induction xs with
  | nil =>
    rw [List.nil_append, splitP_cons_pos hd]
    rfl
  | cons c xs' ih =>
    by_cases h : p c = true
    · simp only [List.cons_append, splitP_cons_pos h, ih]
    · have h' : p c = false := by simpa using h
      cases hx : splitP p xs' with
      | nil => exact absurd hx (splitP_ne_nil p xs')
      | cons t ts =>
        have hx2 : splitP p (xs' ++ d :: ys) = t :: (ts ++ splitP p ys) := by
          rw [ih, hx]; simp
        rw [List.cons_append, splitP_cons_neg h' hx2, splitP_cons_neg h' hx]
        simp

/-- Every character of every piece of a split avoids the separator class. -/
theorem splitP_pieces_no_sep (p : Char → Bool) (s : Str) :
    ∀ t ∈ splitP p s, ∀ c ∈ t, p c = false := by
  induction s with
  | nil =>
    intro t ht c hc
    simp [splitP] at ht
    subst ht; simp at hc
  | cons a as ih =>
    intro t ht c hc
    by_cases h : p a = true
    · rw [splitP_cons_pos h] at ht
      rcases List.mem_cons.mp ht with h1 | h1
      · subst h1; simp at hc
      · exact ih t h1 c hc
    · have h' : p a = false := by simpa using h
      cases hx : splitP p as with
      | nil => exact absurd hx (splitP_ne_nil p as)
      | cons u us =>
        rw [splitP_cons_neg h' hx] at ht
        rcases List.mem_cons.mp ht with h1 | h1
        · subst h1
          rcases List.mem_cons.mp hc with h2 | h2
          · subst h2; exact h'
          · exact ih u (by rw [hx]; exact List.mem_cons_self u us) c h2
        · exact ih t (by rw [hx]; exact List.mem_cons_of_mem u h1) c hc

/-- Splitting commutes with a character map. -/
theorem splitP_map (p : Char → Bool) (f : Char → Char) (s : Str) :
    splitP p (s.map f) = (splitP (fun c => p (f c)) s).map (List.map f) := by
  induction s with
  | nil => simp [splitP]
  | cons c cs ih =>
    by_cases h : p (f c) = true
    · simp only [List.map_cons, splitP_cons_pos h, splitP_cons_pos (p := fun c => p (f c)) h, ih]
      simp
    · have h' : p (f c) = false := by simpa using h
      cases hx : splitP (fun c => p (f c)) cs with
      | nil => exact absurd hx (splitP_ne_nil _ cs)
      | cons t ts =>
        have hmx : splitP p (cs.map f) = t.map f :: ts.map (List.map f) := by
          rw [ih, hx]; simp
        rw [List.map_cons, splitP_cons_neg h' hmx,
          splitP_cons_neg (p := fun c => p (f c)) h' hx]
        simp

theorem words_nil (p : Char → Bool) : words p [] = [] := by
  simp [words, splitP]

theorem words_cons_pos {p : Char → Bool} {c : Char} (h : p c = true) (cs : Str) :
    words p (c :: cs) = words p cs := by
  simp [words, splitP_cons_pos h]

theorem words_allsep {p : Char → Bool} :
    ∀ {s : Str}, (∀ c ∈ s, p c = true) → words p s = []
  | [], _ => words_nil p
  | c :: cs, h => by
    rw [words_cons_pos (h c (List.mem_cons_self c cs)) cs]
    exact words_allsep (fun c hc => h c (List.mem_cons_of_mem _ hc))

theorem words_append_sep {p : Char → Bool} {d : Char} (hd : p d = true)
    (xs ys : Str) : words p (xs ++ d :: ys) = words p xs ++ words p ys := by
  simp [words, splitP_append_sep hd, List.filter_append]

/-- Splitting into lines and then into words equals one split on the union
of the two separator classes (empty pieces dropped). -/
theorem words_join_split (p₁ p₂ : Char → Bool) (s : Str) :
    ((splitP p₁ s).map (words p₂)).flatten = words (fun c => p₁ c || p₂ c) s := by
  cases s with
  | nil => simp [splitP, words_nil]
  | cons c cs =>
    by_cases h1 : p₁ c = true
    · rw [splitP_cons_pos h1, List.map_cons, List.flatten_cons, words_nil,
        List.nil_append,
        words_cons_pos (show (p₁ c || p₂ c) = true by simp [h1]) cs]
      exact words_join_split p₁ p₂ cs
    · have h1' : p₁ c = false := by simpa using h1
      obtain ⟨t, ts, hx⟩ : ∃ t ts, splitP p₁ cs = t :: ts := by
        cases hy : splitP p₁ cs with
        | nil => exact absurd hy (splitP_ne_nil p₁ cs)
        | cons a b => exact ⟨a, b, rfl⟩
      rw [splitP_cons_neg h1' hx, List.map_cons, List.flatten_cons]
      have ih := words_join_split p₁ p₂ cs
      rw [hx, List.map_cons, List.flatten_cons] at ih
      by_cases h2 : p₂ c = true
      · rw [words_cons_pos h2 t,
          words_cons_pos (show (p₁ c || p₂ c) = true by simp [h2]) cs]
        exact ih
      · have h2' : p₂ c = false := by simpa using h2
        have hor : (p₁ c || p₂ c) = false := by simp [h1', h2']
        obtain ⟨u, us, hu⟩ : ∃ u us, splitP p₂ t = u :: us := by
          cases hy : splitP p₂ t with
          | nil => exact absurd hy (splitP_ne_nil p₂ t)
          | cons a b => exact ⟨a, b, rfl⟩
        obtain ⟨v, vs, hv⟩ : ∃ v vs, splitP (fun c => p₁ c || p₂ c) cs = v :: vs := by
          cases hy : splitP (fun c => p₁ c || p₂ c) cs with
          | nil => exact absurd hy (splitP_ne_nil _ cs)
          | cons a b => exact ⟨a, b, rfl⟩
        have huv : u = v := by
          have e1 : u = t.takeWhile (fun c => !p₂ c) := by
            have := splitP_head p₂ t; rw [hu] at this; simpa using this
          have e2 : t = cs.takeWhile (fun c => !p₁ c) := by
            have := splitP_head p₁ cs; rw [hx] at this; simpa using this
          have e3 : v = cs.takeWhile (fun c => !(p₁ c || p₂ c)) := by
            have := splitP_head (fun c => p₁ c || p₂ c) cs
            rw [hv] at this; simpa using this
          rw [e1, e2, List.takeWhile_takeWhile, e3]
          congr 1
          funext a
          cases hp : p₁ a <;> cases hq : p₂ a <;> simp [hp, hq]
        rw [show words p₂ (c :: t) =
              (c :: u) :: us.filter (fun w => !w.isEmpty) by
            rw [words, splitP_cons_neg h2' hu]
            simp,
          show words (fun c => p₁ c || p₂ c) (c :: cs) =
              (c :: v) :: vs.filter (fun w => !w.isEmpty) by
            rw [words, splitP_cons_neg hor hv]
            simp]
        rw [words, hu] at ih
        rw [words, hv] at ih
        subst huv
        by_cases hu0 : u.isEmpty
        · have hunil : u = [] := by simpa [List.isEmpty_iff] using hu0
          subst hunil
          simp at ih
          simp [ih]
        · have hne : u ≠ [] := by simpa [List.isEmpty_iff] using hu0
          simp [List.filter_cons, hne] at ih
          simp [ih]
termination_by s.length
decreasing_by all_goals simp

/-- Python `c.isspace()` (ASCII fragment). -/
def pyIsSpace (c : Char) : Bool :=
  c = ' ' || c = '\t' || c = '\n' || c = '\r' || c = '\x0b' || c = '\x0c'

/-- Python `s.strip()`: remove leading and trailing whitespace. -/
def pyStrip (s : Str) : Str :=
  ((s.dropWhile pyIsSpace).reverse.dropWhile pyIsSpace).reverse

theorem map_id_of_mem {f : Char → Char} :
    ∀ {l : Str}, (∀ c ∈ l, f c = c) → l.map f = l
  | [], _ => rfl
  | c :: cs, h => by
    rw [List.map_cons, h c (List.mem_cons_self c cs),
      map_id_of_mem (fun c hc => h c (List.mem_cons_of_mem _ hc))]

theorem dropWhile_id_of_mem {q : Char → Bool} {s : Str}
    (h : ∀ c ∈ s, q c = false) : s.dropWhile q = s := by
  cases s with
  | nil => rfl
  | cons c cs =>
    rw [List.dropWhile_cons_of_neg]
    simp [h c (List.mem_cons_self c cs)]

/-- Stripping has no effect on a whitespace-free string. -/
theorem pyStrip_id_of_no_space {s : Str} (h : ∀ c ∈ s, pyIsSpace c = false) :
    pyStrip s = s := by
  unfold pyStrip
  rw [dropWhile_id_of_mem h, dropWhile_id_of_mem (by
    intro c hc
    exact h c (List.mem_reverse.mp hc)), List.reverse_reverse]

theorem words_dropWhile {p q : Char → Bool} (hpq : ∀ c, q c = true → p c = true) :
    ∀ s : Str, words p (s.dropWhile q) = words p s
  | [] => rfl
  | c :: cs => by
    by_cases h : q c = true
    · rw [List.dropWhile_cons_of_pos h, words_dropWhile hpq cs,
        words_cons_pos (hpq c h) cs]
    · rw [List.dropWhile_cons_of_neg (by simpa using h)]

theorem words_append_allsep {p : Char → Bool} {xs u : Str}
    (h : ∀ c ∈ u, p c = true) : words p (xs ++ u) = words p xs := by
  cases u with
  | nil => simp
  | cons d u' =>
    rw [words_append_sep (h d (List.mem_cons_self d u')) xs u',
      words_allsep (fun c hc => h c (List.mem_cons_of_mem _ hc)),
      List.append_nil]

/-- Stripping never changes the word decomposition, for any separator
class containing whitespace. -/
theorem words_pyStrip {p : Char → Bool}
    (hp : ∀ c, pyIsSpace c = true → p c = true) (s : Str) :
    words p (pyStrip s) = words p s := by
  have h₁ : words p (s.dropWhile pyIsSpace) = words p s :=
    words_dropWhile hp s
  set s₁ := s.dropWhile pyIsSpace with hs₁
  have hdec : s₁ = pyStrip s ++ (s₁.reverse.takeWhile pyIsSpace).reverse := by
    conv_lhs => rw [← List.reverse_reverse s₁,
      ← List.takeWhile_append_dropWhile (p := pyIsSpace) (l := s₁.reverse)]
    rw [List.reverse_append]
    rfl
  have htrail : ∀ c ∈ (s₁.reverse.takeWhile pyIsSpace).reverse, p c = true := by
    intro c hc
    exact hp c (List.mem_takeWhile_imp (List.mem_reverse.mp hc))
  rw [← h₁, hdec, words_append_allsep htrail]

/-! ### The bulk phone-number input (`add_bulk_phones`, app.py 605-641) -/

/-- Python `bulk_text.replace(',', '\n').replace(';', '\n')`, character-wise. -/
def commaSemiToNL (c : Char) : Char := if c = ',' || c = ';' then '\n' else c

/-- The combined separator class of the bulk parser: commas, semicolons
and whitespace (newlines and spaces included). -/
def bulkSep (c : Char) : Bool := c = ',' || c = ';' || pyIsSpace c

/-- Model of `add_bulk_phones` (app.py lines 605-641), parsing stage: strip the
pasted text; if empty, return nothing.  Otherwise replace `','`/`';'` by
newlines, split into lines, split each line on whitespace, and for each
candidate: strip it, skip it if empty, reject it if not digit-only after
removing `'+'`, and otherwise normalize and accept it.  Returns the
accepted numbers in order together with the added and invalid counts. -/
def addBulkPhones (text : Str) : List Str × Nat × Nat :=
  let bulkText := pyStrip text
  if bulkText.isEmpty then ([], 0, 0)
  else
    let lines := splitP (fun c => c = '\n') (bulkText.map commaSemiToNL)
    let toks := (lines.map (words pyIsSpace)).flatten
    let cleaned := (toks.map pyStrip).filter (fun t => !t.isEmpty)
    let accepted := (cleaned.filter isPhone).map formatPhone
    (accepted, accepted.length, (cleaned.filter (fun t => !isPhone t)).length)

theorem bulk_toks_eq (bulkText : Str) :
    (((splitP (fun c => c = '\n') (bulkText.map commaSemiToNL)).map
        (words pyIsSpace)).flatten) = words bulkSep bulkText := by
  rw [words_join_split]
  have h₂ : (fun c => (decide (c = '\n') || pyIsSpace c)) = pyIsSpace := by
    funext c
    by_cases h : c = '\n'
    · subst h; simp [pyIsSpace]
    · simp [h]
  rw [h₂]
  rw [words, splitP_map]
  have h₃ : (fun c => pyIsSpace (commaSemiToNL c)) = bulkSep := by
    funext c
    by_cases hc : c = ','
    · subst hc; simp [commaSemiToNL, bulkSep, pyIsSpace]
    · by_cases hc' : c = ';'
      · subst hc'; simp [commaSemiToNL, bulkSep, pyIsSpace]
      · simp [commaSemiToNL, bulkSep, hc, hc']
  rw [h₃]
  rw [List.filter_map]
  have h₄ : ((fun t => !t.isEmpty) ∘ List.map commaSemiToNL) =
      (fun t : Str => !t.isEmpty) := by
    funext t
    cases t <;> simp
  rw [h₄]
  have h₅ : ∀ t ∈ (splitP bulkSep bulkText).filter (fun t => !t.isEmpty),
      t.map commaSemiToNL = t := by
    intro t ht
    apply map_id_of_mem
    intro c hc
    have hsep : bulkSep c = false :=
      splitP_pieces_no_sep bulkSep bulkText t (List.mem_of_mem_filter ht) c hc
    have hcomma : ¬ c = ',' := by
      intro h; rw [h] at hsep; simp [bulkSep] at hsep
    have hsemi : ¬ c = ';' := by
      intro h; rw [h] at hsep; simp [bulkSep] at hsep
    simp [commaSemiToNL, hcomma, hsemi]
  rw [words]
  rw [List.map_congr_left h₅]
  simp

/-- C6: bulk phone parsing.  For every input string, the accepted numbers
are exactly the candidates obtained by splitting on newlines, commas,
semicolons and (white)spaces, in order, keeping exactly the digit-only
(after `'+'` removal) candidates, each normalized by `formatPhone`; and
the spec's example input yields the four candidates unchanged. -/
theorem addBulkPhones_correct :
    (∀ text : Str,
      (addBulkPhones text).1 =
        ((words bulkSep text).filter isPhone).map formatPhone) ∧
    (addBulkPhones (str "111, 222;333 444")).1 =
      [str "111", str "222", str "333", str "444"] := by
  constructor
  · intro text
    show (addBulkPhones text).1 = _
    unfold addBulkPhones
    by_cases h0 : (pyStrip text).isEmpty
    · have hnil : pyStrip text = [] := by simpa [List.isEmpty_iff] using h0
      have : words bulkSep text = [] := by
        rw [← words_pyStrip (p := bulkSep) (fun c hc => by simp [bulkSep, hc]) text,
          hnil, words_nil]
      simp [h0, this]
    · simp only [h0, if_false]
      rw [bulk_toks_eq]
      have hW : words bulkSep (pyStrip text) = words bulkSep text :=
        words_pyStrip (fun c hc => by simp [bulkSep, hc]) text
      rw [hW]
      have hclean : ((words bulkSep text).map pyStrip).filter
          (fun t => !t.isEmpty) = words bulkSep text := by
        have hmap : (words bulkSep text).map pyStrip = words bulkSep text := by
          apply List.map_congr_left ?_ |>.trans (List.map_id _)
          intro t ht
          show pyStrip t = t
          apply pyStrip_id_of_no_space
          intro c hc
          have hsep : bulkSep c = false :=
            splitP_pieces_no_sep bulkSep text t (List.mem_of_mem_filter ht) c hc
          revert hsep
          simp [bulkSep]
        rw [hmap]
        apply List.filter_eq_self.mpr
        intro t ht
        have := List.of_mem_filter (p := fun t : Str => !t.isEmpty) ht
        simpa using this
      rw [hclean]
      simp
  · decide

/-! ### Template substitution (`send_bulk_messages`, app.py 273-282)

The message personalization step replaces `\x7bname\x7d` by the contact
name and then, for each further contact field present in the message,
replaces its placeholder by the field value, via Python `str.replace`
(left-to-right, non-overlapping) guarded by a Python `in` containment
check. -/

/-- Python `s.replace(pat, rep)`: left-to-right, non-overlapping; after a
match, scanning continues after the inserted replacement.  (For the empty
pattern — which the program never passes, its patterns all start with a
brace — this returns `s` unchanged.) -/
def replaceAll (pat rep : Str) (s : Str) : Str :=
  if h : pat <+: s ∧ pat ≠ [] then
    rep ++ replaceAll pat rep (s.drop pat.length)
  else
    match s with
    | [] => []
    | c :: cs => c :: replaceAll pat rep cs
termination_by s.length
decreasing_by
  · have h1 := h.1.length_le
    have h2 : 0 < pat.length := List.length_pos.mpr h.2
    simp only [List.length_drop]
    omega
  · simp

/-- Python `pat in s` (substring containment). -/
def containsSub (pat : Str) : Str → Bool
  | [] => decide (pat <+: [])
  | c :: cs => decide (pat <+: (c :: cs)) || containsSub pat cs

/-- The literal left-brace character. -/
def lbrace : Char := '\x7b'

/-- The literal right-brace character. -/
def rbrace : Char := '\x7d'

/-- Python `f'\x7b\x7b\x7bkey\x7d\x7d\x7d'`, i.e. the string `\x7bkey\x7d`. -/
def placeholder (k : Str) : Str := lbrace :: (k ++ [rbrace])

/-- The reserved `name` field. -/
def nameKey : Str := str "name"

/-- Contact records: ordered field/value pairs (Python `dict` iteration
order is insertion order); `lookupField` is key access. -/
def lookupField : List (Str × Str) → Str → Option Str
  | [], _ => none
  | kv :: rest, k => if kv.1 = k then some kv.2 else lookupField rest k

/-- One iteration of the custom-field loop, app.py 280-282:
`if key != 'name' and f'...' in personalized_message: ... .replace(...)`. -/
def substStep (pm : Str) (kv : Str × Str) : Str :=
  if kv.1 ≠ nameKey ∧ containsSub (placeholder kv.1) pm then
    replaceAll (placeholder kv.1) kv.2 pm
  else pm

/-- app.py 275-282: the personalized message for one contact.
`contactName` is `contact['name']`, fetched at line 269. -/
def personalizeMessage (message : Str) (contact : List (Str × Str))
    (contactName : Str) : Str :=
  contact.foldl substStep
    (if containsSub (placeholder nameKey) message then
      replaceAll (placeholder nameKey) contactName message
    else message)

/-! To state what substitution does to *every* placeholder at once, a
template is presented as a list of tokens (literal runs and placeholders);
`renderT` is the template string it denotes.  Brace-freeness of literals,
keys and values is the well-formedness under which "replace every
occurrence" is meaningful. -/

/-- A template token: a literal run, or a `\x7bkey\x7d` placeholder. -/
inductive Tok where
  | lit : Str → Tok
  | ph : Str → Tok
deriving DecidableEq

/-- The string a token denotes. -/
def renderTok : Tok → Str
  | .lit s => s
  | .ph k => placeholder k

/-- The template string a token list denotes. -/
def renderT (ts : List Tok) : Str := (ts.map renderTok).flatten

/-- No brace characters. -/
def braceFree (s : Str) : Bool := s.all (fun c => ¬ c = lbrace ∧ ¬ c = rbrace)

/-- Well-formed contact entry: brace-free key and value. -/
def entryWF (kv : Str × Str) : Bool := braceFree kv.1 && braceFree kv.2

/-- Well-formed token: brace-free literal / brace-free key. -/
def tokWF : Tok → Bool
  | .lit s => braceFree s
  | .ph k => braceFree k

/-- Well-formed template. -/
def wfT (ts : List Tok) : Bool := ts.all tokWF

/-- The effect of one `replace` pass on a token: placeholders of the given
key become the replacement literal. -/
def substTok (k v : Str) : Tok → Tok
  | .lit s => .lit s
  | .ph k' => if k' = k then .lit v else .ph k'

/-- Modelled from the spec: simultaneous per-token resolution — a
placeholder whose field is present becomes the field value, an absent one
stays verbatim, literals are untouched. -/
def resolveTok (contact : List (Str × Str)) : Tok → Str
  | .lit s => s
  | .ph k =>
    match lookupField contact k with
    | some v => v
    | none => placeholder k

/-- Modelled from the spec: the fully resolved template. -/
def resolveSpec (contact : List (Str × Str)) (ts : List Tok) : Str :=
  (ts.map (resolveTok contact)).flatten

theorem replaceAll_nil (pat rep : Str) : replaceAll pat rep [] = [] := by
  rw [replaceAll]
  rw [dif_neg]
  rintro ⟨h1, h2⟩
  exact h2 (List.prefix_nil.mp h1)

theorem replaceAll_pos {pat s : Str} (hp : pat <+: s) (hne : pat ≠ [])
    (rep : Str) :
    replaceAll pat rep s = rep ++ replaceAll pat rep (s.drop pat.length) := by
  rw [replaceAll, dif_pos ⟨hp, hne⟩]

theorem replaceAll_cons_neg {pat : Str} {c : Char} {cs : Str}
    (hp : ¬ pat <+: (c :: cs)) (rep : Str) :
    replaceAll pat rep (c :: cs) = c :: replaceAll pat rep cs := by
  rw [replaceAll, dif_neg (fun h => hp h.1)]

theorem renderT_nil : renderT [] = [] := rfl

theorem renderT_cons (t : Tok) (ts : List Tok) :
    renderT (t :: ts) = renderTok t ++ renderT ts := by
  simp [renderT]

theorem braceFree_chars {s : Str} (h : braceFree s = true) :
    ∀ c ∈ s, c ≠ lbrace ∧ c ≠ rbrace := by
  intro c hc
  have := List.all_eq_true.mp h c hc
  simpa using this

theorem wfT_cons {t : Tok} {ts : List Tok} (h : wfT (t :: ts) = true) :
    tokWF t = true ∧ wfT ts = true := by
  simpa [wfT] using h

theorem not_prefix_of_head_ne {b c : Char} {p cs : Str} (h : b ≠ c) :
    ¬ (b :: p) <+: (c :: cs) := fun hpre =>
  h (List.cons_prefix_cons.mp hpre).1

theorem braceFree_cons {c : Char} {s : Str} :
    braceFree (c :: s) = true ↔ (c ≠ lbrace ∧ c ≠ rbrace) ∧ braceFree s = true := by
  simp [braceFree]

/-- A `replace` pass goes over a brace-free front unchanged. -/
theorem replaceAll_skip {k v : Str} :
    ∀ {s : Str}, (∀ c ∈ s, c ≠ lbrace) → ∀ rest : Str,
      replaceAll (placeholder k) v (s ++ rest) =
        s ++ replaceAll (placeholder k) v rest
  | [], _, _ => by simp
  | c :: s', hs, rest => by
    have hc : c ≠ lbrace := hs c (List.mem_cons_self c s')
    rw [List.cons_append,
      replaceAll_cons_neg (show ¬ placeholder k <+: (c :: (s' ++ rest)) from
        not_prefix_of_head_ne (fun h => hc h.symm)) v,
      replaceAll_skip (fun a ha => hs a (List.mem_cons_of_mem _ ha)) rest]
    rfl

/-- Two well-formed placeholders starting at the same position match only
if their keys are equal. -/
theorem key_close_inj : ∀ (k k' rest : Str),
    braceFree k = true → braceFree k' = true →
    (k ++ [rbrace]) <+: (k' ++ rbrace :: rest) → k = k'
  | [], [], _, _, _, _ => rfl
  | [], c :: k₂', _, _, hk', hpre => by
    rw [List.nil_append, List.cons_append, List.cons_prefix_cons] at hpre
    exact absurd hpre.1.symm ((braceFree_cons.mp hk').1.2)
  | a :: k₂, [], rest, hk, _, hpre => by
    rw [List.cons_append, List.nil_append, List.cons_prefix_cons] at hpre
    exact absurd hpre.1 ((braceFree_cons.mp hk).1.2)
  | a :: k₂, c :: k₂', rest, hk, hk', hpre => by
    rw [List.cons_append, List.cons_append, List.cons_prefix_cons] at hpre
    rw [hpre.1, key_close_inj k₂ k₂' rest (braceFree_cons.mp hk).2
      (braceFree_cons.mp hk').2 hpre.2]

theorem placeholder_not_prefix_ne {k k' : Str} (hk : braceFree k = true)
    (hk' : braceFree k' = true) (hne : k ≠ k') (rest : Str) :
    ¬ placeholder k <+: (placeholder k' ++ rest) := by
  intro h
  unfold placeholder at h
  rw [List.cons_append, List.cons_prefix_cons] at h
  exact hne (key_close_inj k k' rest hk hk' (by
    have h2 := h.2
    rwa [List.append_assoc, List.singleton_append] at h2))

theorem placeholder_ne_nil (k : Str) : placeholder k ≠ [] := by
  simp [placeholder]

/-- One `replace` pass, on a rendered well-formed template: exactly the
placeholders of the replaced key change, each into the replacement. -/
theorem replaceAll_renderT {k v : Str} (hk : braceFree k = true) :
    ∀ {ts : List Tok}, wfT ts = true →
      replaceAll (placeholder k) v (renderT ts) =
        renderT (ts.map (substTok k v))
  | [], _ => by simp [renderT_nil, replaceAll_nil]
  | .lit s :: ts, hwf => by
    obtain ⟨ht, hts⟩ := wfT_cons hwf
    rw [renderT_cons, List.map_cons,
      renderT_cons (substTok k v (.lit s))]
    show replaceAll (placeholder k) v (s ++ renderT ts) = _
    rw [replaceAll_skip (fun c hc => (braceFree_chars ht c hc).1) (renderT ts),
      replaceAll_renderT hk hts]
    rfl
  | .ph k' :: ts, hwf => by
    obtain ⟨ht, hts⟩ := wfT_cons hwf
    have hk'f : braceFree k' = true := ht
    rw [renderT_cons, List.map_cons, renderT_cons (substTok k v (.ph k'))]
    by_cases hkk : k' = k
    · subst hkk
      show replaceAll (placeholder k') v (placeholder k' ++ renderT ts) = _
      rw [replaceAll_pos (List.prefix_append _ _) (placeholder_ne_nil k') v,
        List.drop_left, replaceAll_renderT hk hts]
      simp [substTok, renderTok]
    · show replaceAll (placeholder k) v (placeholder k' ++ renderT ts) = _
      have hstep : placeholder k' ++ renderT ts =
          lbrace :: (k' ++ (rbrace :: renderT ts)) := by
        simp [placeholder]
      rw [hstep,
        replaceAll_cons_neg (by
          rw [← hstep]
          exact placeholder_not_prefix_ne hk hk'f
            (fun h => hkk h.symm) (renderT ts)) v,
        replaceAll_skip (fun c hc => (braceFree_chars hk'f c hc).1)
          (rbrace :: renderT ts),
        replaceAll_cons_neg (show ¬ placeholder k <+: (rbrace :: renderT ts)
          from not_prefix_of_head_ne (by decide)) v,
        replaceAll_renderT hk hts]
      simp [substTok, hkk, renderTok, placeholder]

theorem containsSub_self_append (pat b : Str) :
    containsSub pat (pat ++ b) = true := by
  cases hpb : pat ++ b with
  | nil =>
    have hp : pat = [] := (List.append_eq_nil.mp hpb).1
    subst hp
    simp at hpb
    subst hpb
    simp [containsSub]
  | cons c cs =>
    have : pat <+: (c :: cs) := hpb ▸ List.prefix_append pat b
    simp [containsSub, this]

theorem containsSub_append_left (pat : Str) :
    ∀ (s : Str) {t : Str}, containsSub pat t = true →
      containsSub pat (s ++ t) = true
  | [], _, h => h
  | c :: s', t, h => by
    rw [List.cons_append]
    simp [containsSub, containsSub_append_left pat s' h]

/-- A placeholder token occurring in a template is found by the Python
`in` check on the rendered string. -/
theorem containsSub_of_mem {k : Str} {ts : List Tok} (h : Tok.ph k ∈ ts) :
    containsSub (placeholder k) (renderT ts) = true := by
  obtain ⟨a, b, rfl⟩ := List.append_of_mem h
  have : renderT (a ++ Tok.ph k :: b) =
      renderT a ++ (placeholder k ++ renderT b) := by
    simp [renderT, renderTok]
  rw [this]
  exact containsSub_append_left _ _ (containsSub_self_append _ _)

theorem map_substTok_id {k v : Str} {ts : List Tok} (h : Tok.ph k ∉ ts) :
    ts.map (substTok k v) = ts := by
  have : ∀ t ∈ ts, substTok k v t = t := by
    intro t ht
    cases t with
    | lit s => rfl
    | ph k' =>
      have : k' ≠ k := fun hk => h (hk ▸ ht)
      simp [substTok, this]
  exact (List.map_congr_left this).trans (List.map_id _)

/-- The effect of one loop iteration at the template level. -/
def stepTok (ts : List Tok) (kv : Str × Str) : List Tok :=
  if kv.1 ≠ nameKey then ts.map (substTok kv.1 kv.2) else ts

/-- The effect of one loop iteration on a single token. -/
def stepTok1 (t : Tok) (kv : Str × Str) : Tok :=
  if kv.1 ≠ nameKey then substTok kv.1 kv.2 t else t

/-- The cumulative effect of the custom-field loop on one token. -/
def applyE (entries : List (Str × Str)) (t : Tok) : Tok :=
  entries.foldl stepTok1 t

theorem wfT_map_substTok {k v : Str} (hv : braceFree v = true)
    {ts : List Tok} (hwf : wfT ts = true) :
    wfT (ts.map (substTok k v)) = true := by
  rw [wfT, List.all_map]
  apply List.all_eq_true.mpr
  intro t ht
  have htwf : tokWF t = true := List.all_eq_true.mp hwf t ht
  cases t with
  | lit s => exact htwf
  | ph k' =>
    show tokWF (substTok k v (.ph k')) = true
    by_cases hkk : k' = k
    · simp [substTok, hkk, tokWF, hv]
    · simpa [substTok, hkk, tokWF] using htwf

/-- One iteration of app.py 280-282 acts on a rendered template as the
per-token substitution. -/
theorem substStep_renderT {ts : List Tok} {kv : Str × Str}
    (hwf : wfT ts = true) (he : entryWF kv = true) :
    substStep (renderT ts) kv = renderT (stepTok ts kv) := by
  have hkf : braceFree kv.1 = true := by
    simpa [entryWF] using (Bool.and_elim_left (by simpa [entryWF] using he))
  unfold substStep stepTok
  by_cases hname : kv.1 = nameKey
  · simp [hname]
  · by_cases hc : containsSub (placeholder kv.1) (renderT ts) = true
    · rw [if_pos ⟨hname, hc⟩, if_pos hname,
        replaceAll_renderT hkf hwf]
    · rw [if_neg (fun hand => hc hand.2), if_pos hname,
        map_substTok_id (fun hmem => hc (containsSub_of_mem hmem))]

theorem entryWF_val {kv : Str × Str} (he : entryWF kv = true) :
    braceFree kv.2 = true := by
  have := (Bool.and_eq_true _ _).mp (by simpa [entryWF] using he)
  exact this.2

/-- The whole loop, on a rendered template. -/
theorem foldl_substStep_renderT :
    ∀ (entries : List (Str × Str)) {ts : List Tok},
      entries.all entryWF = true → wfT ts = true →
      entries.foldl substStep (renderT ts) =
        renderT (entries.foldl stepTok ts)
  | [], _, _, _ => rfl
  | kv :: rest, ts, hall, hwf => by
    have hkv : entryWF kv = true :=
      List.all_eq_true.mp hall kv (List.mem_cons_self kv rest)
    have hrest : rest.all entryWF = true := by
      apply List.all_eq_true.mpr
      intro e hemem
      exact List.all_eq_true.mp hall e (List.mem_cons_of_mem _ hemem)
    have hwf' : wfT (stepTok ts kv) = true := by
      unfold stepTok
      by_cases hname : kv.1 = nameKey
      · simpa [hname] using hwf
      · rw [if_pos hname]
        exact wfT_map_substTok (entryWF_val hkv) hwf
    rw [List.foldl_cons, substStep_renderT hwf hkv, List.foldl_cons,
      foldl_substStep_renderT rest hrest hwf']

/-- The template-level loop acts one token at a time. -/
theorem foldl_stepTok_eq_map :
    ∀ (entries : List (Str × Str)) (ts : List Tok),
      entries.foldl stepTok ts = ts.map (applyE entries)
  | [], ts => by
    rw [List.foldl_nil]
    exact ((List.map_congr_left (fun t _ => rfl)).trans (List.map_id ts)).symm
  | kv :: rest, ts => by
    rw [List.foldl_cons, foldl_stepTok_eq_map rest _]
    unfold stepTok
    by_cases hname : kv.1 = nameKey
    · rw [if_neg (fun h => h hname)]
      apply List.map_congr_left
      intro t _
      show applyE rest t = applyE (kv :: rest) t
      unfold applyE
      rw [List.foldl_cons]
      unfold stepTok1
      rw [if_neg (fun h => h hname)]
    · rw [if_pos hname, List.map_map]
      apply List.map_congr_left
      intro t _
      show applyE rest (substTok kv.1 kv.2 t) = applyE (kv :: rest) t
      unfold applyE
      rw [List.foldl_cons]
      unfold stepTok1
      rw [if_pos hname]

theorem applyE_lit (s : Str) :
    ∀ (entries : List (Str × Str)), applyE entries (.lit s) = .lit s
  | [] => rfl
  | kv :: rest => by
    unfold applyE
    rw [List.foldl_cons]
    have : stepTok1 (.lit s) kv = .lit s := by
      unfold stepTok1
      by_cases h : kv.1 = nameKey
      · rw [if_neg (fun hh => hh h)]
      · rw [if_pos h]; rfl
    rw [this]
    exact applyE_lit s rest

theorem lookupField_cons (kv : Str × Str) (rest : List (Str × Str)) (k : Str) :
    lookupField (kv :: rest) k =
      if kv.1 = k then some kv.2 else lookupField rest k := rfl

/-- The loop resolves a non-`name` placeholder to its first-match lookup
(or leaves it verbatim when the field is absent). -/
theorem applyE_ph {k : Str} (hk : k ≠ nameKey) :
    ∀ (entries : List (Str × Str)),
      renderTok (applyE entries (.ph k)) = resolveTok entries (.ph k)
  | [] => rfl
  | kv :: rest => by
    unfold applyE
    rw [List.foldl_cons]
    by_cases hname : kv.1 = nameKey
    · have h1 : stepTok1 (.ph k) kv = .ph k := by
        unfold stepTok1; rw [if_neg (fun hh => hh hname)]
      rw [h1]
      have h2 := applyE_ph hk rest
      unfold applyE at h2
      rw [h2]
      have hlk : lookupField (kv :: rest) k = lookupField rest k := by
        rw [lookupField_cons, if_neg (fun (h : kv.1 = k) => hk (h ▸ hname))]
      simp only [resolveTok, hlk]
    · have h1 : stepTok1 (.ph k) kv = substTok kv.1 kv.2 (.ph k) := by
        unfold stepTok1; rw [if_pos hname]
      rw [h1]
      by_cases hkk : k = kv.1
      · have h2 : substTok kv.1 kv.2 (.ph k) = .lit kv.2 := by
          simp [substTok, hkk]
        rw [h2]
        have h3 := applyE_lit kv.2 rest
        unfold applyE at h3
        rw [h3]
        have hlk : lookupField (kv :: rest) k = some kv.2 := by
          rw [lookupField_cons, if_pos hkk.symm]
        simp [resolveTok, hlk, renderTok]
      · have h2 : substTok kv.1 kv.2 (.ph k) = .ph k := by
          simp [substTok, hkk]
        rw [h2]
        have h3 := applyE_ph hk rest
        unfold applyE at h3
        rw [h3]
        have hlk : lookupField (kv :: rest) k = lookupField rest k := by
          rw [lookupField_cons, if_neg (fun h => hkk h.symm)]
        simp only [resolveTok, hlk]

theorem lookup_braceFree {k v : Str} :
    ∀ {contact : List (Str × Str)}, contact.all entryWF = true →
      lookupField contact k = some v → braceFree v = true
  | [], _, h => by simp [lookupField] at h
  | kv :: rest, hall, h => by
    unfold lookupField at h
    by_cases hk : kv.1 = k
    · rw [if_pos hk] at h
      cases h
      exact entryWF_val (List.all_eq_true.mp hall kv (List.mem_cons_self kv rest))
    · rw [if_neg hk] at h
      exact lookup_braceFree (by
        apply List.all_eq_true.mpr
        intro e he
        exact List.all_eq_true.mp hall e (List.mem_cons_of_mem _ he)) h

theorem renderTok_applyE {contact : List (Str × Str)} {nm : Str}
    (hname : lookupField contact nameKey = some nm) (t : Tok) :
    renderTok (applyE contact (substTok nameKey nm t)) = resolveTok contact t := by
  cases t with
  | lit s =>
    show renderTok (applyE contact (.lit s)) = s
    rw [applyE_lit]
    rfl
  | ph k =>
    by_cases hk : k = nameKey
    · subst hk
      have h1 : substTok nameKey nm (.ph nameKey) = .lit nm := by
        simp [substTok]
      rw [h1, applyE_lit]
      show nm = resolveTok contact (.ph nameKey)
      simp [resolveTok, hname]
    · have h1 : substTok nameKey nm (.ph k) = .ph k := by
        simp [substTok, hk]
      rw [h1]
      exact applyE_ph hk contact

/-- C1: template substitution.  For every well-formed template (presented
as its token list) and contact record containing `name`, the personalized
message substitutes the contact name for every `\x7bname\x7d`, each
present field value for its placeholder, and leaves each absent field's
placeholder verbatim — i.e. it equals the simultaneous spec-side
resolution — raising no error.  Well-formedness: literal runs, keys and
field values are brace-free. -/
theorem personalizeMessage_correct (contact : List (Str × Str)) (nm : Str)
    (ts : List Tok) (hname : lookupField contact nameKey = some nm)
    (hcwf : contact.all entryWF = true) (hwf : wfT ts = true) :
    personalizeMessage (renderT ts) contact nm = resolveSpec contact ts := by
  have hnm : braceFree nm = true := lookup_braceFree hcwf hname
  have hpm : (if containsSub (placeholder nameKey) (renderT ts) then
      replaceAll (placeholder nameKey) nm (renderT ts) else renderT ts) =
      renderT (ts.map (substTok nameKey nm)) := by
    by_cases hc : containsSub (placeholder nameKey) (renderT ts) = true
    · rw [if_pos hc, replaceAll_renderT (by decide) hwf]
    · rw [if_neg (by simpa using hc),
        map_substTok_id (fun hmem => hc (containsSub_of_mem hmem))]
  unfold personalizeMessage
  rw [hpm, foldl_substStep_renderT contact hcwf (wfT_map_substTok hnm hwf),
    foldl_stepTok_eq_map, List.map_map]
  unfold renderT resolveSpec
  rw [List.map_map]
  congr 1
  apply List.map_congr_left
  intro t _
  exact renderTok_applyE hname t

/-- C1 witness: the spec's example.  Template `Hi \x7bname\x7d, order
\x7bid\x7d ready` with contact `\x7bname: Ana\x7d` yields
`Hi Ana, order \x7bid\x7d ready`. -/
theorem personalizeMessage_correct_witness :
    lookupField [(str "name", str "Ana")] nameKey = some (str "Ana") ∧
    personalizeMessage
        (renderT [Tok.lit (str "Hi "), Tok.ph (str "name"),
          Tok.lit (str ", order "), Tok.ph (str "id"), Tok.lit (str " ready")])
        [(str "name", str "Ana")] (str "Ana") =
      str "Hi Ana, order \x7bid\x7d ready" := by
  refine ⟨by decide, ?_⟩
  rw [personalizeMessage_correct [(str "name", str "Ana")] (str "Ana")
    [Tok.lit (str "Hi "), Tok.ph (str "name"),
      Tok.lit (str ", order "), Tok.ph (str "id"), Tok.lit (str " ready")]
    (by decide) (by decide) (by decide)]
  decide

/-- C2: phone-number normalization.  For every identifier the code treats
as a phone number, a `'+'` is prepended exactly when the length exceeds 7
and the identifier does not already start with `'+'`; a `'+'`-prefixed
identifier and a short identifier are returned unchanged. -/
theorem formatPhone_correct (s : Str) (hphone : isPhone s = true) :
    (s.length > 7 ∧ startsWithPlus s = false → formatPhone s = '+' :: s) ∧
    (startsWithPlus s = true → formatPhone s = s) ∧
    (s.length ≤ 7 → formatPhone s = s) := by
  refine ⟨fun h => ?_, fun h => ?_, fun h => ?_⟩
  · simp [formatPhone, h.1, h.2]
  · simp [formatPhone, h]
  · have : ¬ s.length > 7 := by omega
    simp [formatPhone, this]

/-- C2 witness: the spec's three examples, checked concretely. -/
theorem formatPhone_correct_witness :
    formatPhone (str "14155552671") = str "+14155552671" ∧
    formatPhone (str "+14155552671") = str "+14155552671" ∧
    formatPhone (str "123") = str "123" := by
  refine ⟨?_, ?_, ?_⟩
  · exact ((formatPhone_correct (str "14155552671") (by decide)).1 (by decide))
  · exact ((formatPhone_correct (str "+14155552671") (by decide)).2.1 (by decide))
  · exact ((formatPhone_correct (str "123") (by decide)).2.2 (by decide))

/-! ### The browser session driver

Selenium calls are modelled by an environment giving each primitive's
outcome: a value, or a raised exception.  `Except.error` at an operation's
top level means an exception escaped it.  Traces record the browser
interactions performed, in order (log lines go to the UI callback, not the
browser, and are kept out of these traces). -/

/-- Exception classes: Selenium `TimeoutException`,
`NoSuchElementException`, and any other `Exception`-derived error. -/
inductive PyExn where
  | timeoutExc
  | noSuchElem
  | otherExc
deriving DecidableEq

/-- Caught by `except (TimeoutException, NoSuchElementException)`. -/
def PyExn.isTNSE : PyExn → Bool
  | .timeoutExc => true
  | .noSuchElem => true
  | .otherExc => false

/-- Browser interactions of `search_contact` (app.py 105-194). -/
inductive SAct where
  | findBox (i : Nat)       -- `wait.until` on search-box XPath `i` (122)
  | clearBox                -- `search_box.clear()` (133)
  | typeKeys (s : Str)      -- `search_box.send_keys(...)` (145/148)
  | findPattern (i : Nat)   -- `find_elements` on result pattern `i` (168)
  | clickResult (i : Nat)   -- `elements[0].click()` (170)
  | navigate (url : Str)    -- `driver.get(...)` deep link (181)
  | waitChat                -- `wait.until` message-box marker (183)
deriving DecidableEq

/-- Outcomes of the browser primitives `search_contact` performs.  The
cancellation flag is read more than once and can be set concurrently, so
each read point is a separate component. -/
structure SearchEnv where
  cancelRequested : Bool                   -- flag at entry (107)
  waitSearchBox : Nat → Except PyExn Bool  -- find box `i`; `ok d` = found, displayed `d` (121-124)
  clearBox : Except PyExn Unit             -- (133)
  typeKeys : Except PyExn Unit             -- (145/148)
  cancelAtPattern : Nat → Bool             -- flag inside the click loop (165)
  findPattern : Nat → Except PyExn Bool    -- `ok b` = elements found (`b` = nonempty) (168)
  clickResult : Nat → Except PyExn Unit    -- (170)
  navigate : Except PyExn Unit             -- (181)
  waitChat : Except PyExn Unit             -- (183)

/-- The search/message box fallback loop (app.py 118-126 and 211-217): try
each XPath; a found-but-undisplayed box is retained (the loop variable is
not reset), a raised lookup leaves the previous value, a displayed box
stops the loop. -/
def boxLoop {A : Type} (wait : Nat → Except PyExn Bool) (act : Nat → A) :
    List Nat → Option Nat → Option Nat × List A
  | [], acc => (acc, [])
  | i :: rest, acc =>
    match wait i with
    | .error _ =>
      let (r, tr) := boxLoop wait act rest acc
      (r, act i :: tr)
    | .ok displayed =>
      if displayed then (some i, [act i])
      else
        let (r, tr) := boxLoop wait act rest (some i)
        (r, act i :: tr)

/-- The result-clicking loop (app.py 164-174): for each pattern, check the
cancellation flag (early `return False`), then under a bare `except:
continue` find elements and click the first; success is an early
`return True`.  `some b` = early return `b`; `none` = loop fell through. -/
def clickLoop (env : SearchEnv) : List Nat → Option Bool × List SAct
  | [] => (none, [])
  | i :: rest =>
    if env.cancelAtPattern i then (some false, [])
    else
      match env.findPattern i with
      | .error _ =>
        let (r, tr) := clickLoop env rest
        (r, .findPattern i :: tr)
      | .ok false =>
        let (r, tr) := clickLoop env rest
        (r, .findPattern i :: tr)
      | .ok true =>
        match env.clickResult i with
        | .error _ =>
          let (r, tr) := clickLoop env rest
          (r, .findPattern i :: .clickResult i :: tr)
        | .ok _ => (some true, [.findPattern i, .clickResult i])

/-- The deep-link URL: `https://web.whatsapp.com/send?phone=` followed by
the number with `'+'` removed (app.py 179-181). -/
def deepLinkUrl (contact : Str) : Str :=
  str "https://web.whatsapp.com/send?phone=" ++ stripPlus contact

/-- The deep-link fallback (app.py 176-185): only for phone-like
identifiers longer than 7 characters; navigate, then wait for the
message-box marker, then `return True`. -/
def deepLink (env : SearchEnv) (contact : Str) :
    Except PyExn (Option Bool) × List SAct :=
  if isPhone contact = true ∧ contact.length > 7 then
    match env.navigate with
    | .error e => (.error e, [.navigate (deepLinkUrl contact)])
    | .ok _ =>
      match env.waitChat with
      | .error e => (.error e, [.navigate (deepLinkUrl contact), .waitChat])
      | .ok _ => (.ok (some true), [.navigate (deepLinkUrl contact), .waitChat])
  else (.ok none, [])

/-- app.py 154-188: the click loop then the deep-link fallback, wrapped in
`except (TimeoutException, NoSuchElementException): pass`. -/
def midBlock (env : SearchEnv) (contact : Str) :
    Except PyExn (Option Bool) × List SAct :=
  let (r, tr) := clickLoop env [0, 1, 2, 3, 4]
  match r with
  | some b => (.ok (some b), tr)
  | none =>
    let (r₂, tr₂) := deepLink env contact
    match r₂ with
    | .ok ob => (.ok ob, tr ++ tr₂)
    | .error e =>
      if e.isTNSE then (.ok none, tr ++ tr₂) else (.error e, tr ++ tr₂)

/-- The body of `search_contact`'s outer `try` (app.py 110-194). -/
def searchBody (env : SearchEnv) (contact : Str) :
    Except PyExn Bool × List SAct :=
  let (box, tr₀) := boxLoop env.waitSearchBox SAct.findBox [0, 1, 2] none
  match box with
  | none => (.ok false, tr₀)   -- "Could not find the search box" (128-130)
  | some _ =>
    match env.clearBox with
    | .error e => (.error e, tr₀ ++ [.clearBox])
    | .ok _ =>
      let typed := if isPhone contact then formatPhone contact else contact
      match env.typeKeys with
      | .error e => (.error e, tr₀ ++ [.clearBox, .typeKeys typed])
      | .ok _ =>
        let (r, tr₁) := midBlock env contact
        match r with
        | .ok (some b) => (.ok b, tr₀ ++ [.clearBox, .typeKeys typed] ++ tr₁)
        | .ok none =>     -- "Could not find contact" (190-191)
          (.ok false, tr₀ ++ [.clearBox, .typeKeys typed] ++ tr₁)
        | .error e => (.error e, tr₀ ++ [.clearBox, .typeKeys typed] ++ tr₁)

/-- Model of `search_contact` (app.py 105-194): entry cancellation check, then the
body under `except Exception: log; return False`. -/
def searchContact (env : SearchEnv) (contact : Str) :
    Except PyExn Bool × List SAct :=
  if env.cancelRequested then (.ok false, [])
  else
    match searchBody env contact with
    | (.ok b, tr) => (.ok b, tr)
    | (.error _, tr) => (.ok false, tr)

/-- C4: `search_contact` is a total boolean operation — whatever outcome
every browser primitive has (including any raised exception), the
operation returns a boolean and no exception escapes its boundary. -/
theorem searchContact_total (env : SearchEnv) (contact : Str) :
    ∃ b, (searchContact env contact).1 = Except.ok b := by
  by_cases hc : env.cancelRequested
  · exact ⟨false, by simp [searchContact, hc]⟩
  · rcases h : searchBody env contact with ⟨r, tr⟩
    cases r with
    | ok b => exact ⟨b, by simp [searchContact, hc, h]⟩
    | error e => exact ⟨false, by simp [searchContact, hc, h]⟩

/-- An environment in which the search box is found at once but every
result-clicking strategy finds no elements, and in which navigation and
waits succeed. -/
def envDeepOk : SearchEnv where
  cancelRequested := false
  waitSearchBox := fun _ => .ok true
  clearBox := .ok ()
  typeKeys := .ok ()
  cancelAtPattern := fun _ => false
  findPattern := fun _ => .ok false
  clickResult := fun _ => .ok ()
  navigate := .ok ()
  waitChat := .ok ()

/-- C3 counterexample: `"123"` is phone-like (digit-only) and every
selector strategy fails, yet `search_contact` performs *no* deep-link
navigation and reports failure — the fallback requires length > 7
(app.py 177), which the claim omits. -/
theorem searchContact_no_fallback_short :
    isPhone (str "123") = true ∧
    (clickLoop envDeepOk [0, 1, 2, 3, 4]).1 = none ∧
    searchContact envDeepOk (str "123") =
      (.ok false,
        [SAct.findBox 0, SAct.clearBox, SAct.typeKeys (str "123"),
         SAct.findPattern 0, SAct.findPattern 1, SAct.findPattern 2,
         SAct.findPattern 3, SAct.findPattern 4]) ∧
    ((searchContact envDeepOk (str "123")).2.all fun a =>
      match a with
      | SAct.navigate _ => false
      | _ => true) = true :=
  ⟨rfl, rfl, rfl, rfl⟩

/-- C3 (amended): for every phone-like identifier *longer than 7
characters*, when the search box is found and typing succeeds but every
result-clicking strategy fails, `search_contact` navigates to the
deep-link URL (digits only, `'+'` stripped), then waits for the
message-input marker: it reports success when that wait succeeds, and
failure when the wait raises. -/
theorem searchContact_deepLink (env : SearchEnv) (contact : Str)
    (hcr : env.cancelRequested = false)
    (hbox : (boxLoop env.waitSearchBox SAct.findBox [0, 1, 2] none).1.isSome = true)
    (hclear : env.clearBox = .ok ())
    (htype : env.typeKeys = .ok ())
    (hclick : (clickLoop env [0, 1, 2, 3, 4]).1 = none)
    (hphone : isPhone contact = true)
    (hlen : contact.length > 7)
    (hnav : env.navigate = .ok ()) :
    (env.waitChat = .ok () →
      searchContact env contact =
        (.ok true,
          (boxLoop env.waitSearchBox SAct.findBox [0, 1, 2] none).2 ++
            [SAct.clearBox, SAct.typeKeys (formatPhone contact)] ++
            (clickLoop env [0, 1, 2, 3, 4]).2 ++
            [SAct.navigate (deepLinkUrl contact), SAct.waitChat])) ∧
    (∀ e, env.waitChat = .error e →
      searchContact env contact =
        (.ok false,
          (boxLoop env.waitSearchBox SAct.findBox [0, 1, 2] none).2 ++
            [SAct.clearBox, SAct.typeKeys (formatPhone contact)] ++
            (clickLoop env [0, 1, 2, 3, 4]).2 ++
            [SAct.navigate (deepLinkUrl contact), SAct.waitChat])) := by
  rcases hbp : boxLoop env.waitSearchBox SAct.findBox [0, 1, 2] none with ⟨box, tr₀⟩
  rw [hbp] at hbox
  obtain ⟨j, hj⟩ := Option.isSome_iff_exists.mp hbox
  subst hj
  rcases hclp : clickLoop env [0, 1, 2, 3, 4] with ⟨cres, trC⟩
  rw [hclp] at hclick
  simp only at hclick
  subst hclick
  constructor
  · intro hw
    simp [searchContact, searchBody, midBlock, deepLink, hcr, hbp, hclp,
      hclear, htype, hnav, hw, hphone, hlen, List.append_assoc]
  · intro e hw
    cases he : e.isTNSE <;>
      simp [searchContact, searchBody, midBlock, deepLink, hcr, hbp, hclp,
        hclear, htype, hnav, hw, hphone, hlen, he, List.append_assoc]

/-- C3 witness (for the amended claim): the concrete run on
`"14155552671"` in `envDeepOk` — navigation to the deep link followed by
the chat-marker wait, then success. -/
theorem searchContact_deepLink_witness :
    searchContact envDeepOk (str "14155552671") =
      (.ok true,
        [SAct.findBox 0, SAct.clearBox, SAct.typeKeys (str "+14155552671"),
         SAct.findPattern 0, SAct.findPattern 1, SAct.findPattern 2,
         SAct.findPattern 3, SAct.findPattern 4,
         SAct.navigate (str "https://web.whatsapp.com/send?phone=14155552671"),
         SAct.waitChat]) := by
  have h := (searchContact_deepLink envDeepOk (str "14155552671") rfl
    (by decide) rfl rfl (by decide) (by decide) (by decide) rfl).1 rfl
  rw [h]
  rfl

/-! ### `send_message` (app.py 196-251) -/

/-- Browser interactions of `send_message`. -/
inductive MAct where
  | findMsgBox (i : Nat)   -- `wait.until` on message-box XPath `i` (213)
  | findButtons            -- `find_elements` for popup buttons (226)
  | clickButton (j : Nat)  -- `button.click()` (229)
  | clearMsgBox            -- `message_box.clear()` (236)
  | typeLine (s : Str)     -- `send_keys(line)` (238)
  | lineBreak              -- `send_keys(SHIFT+ENTER)` (240)
  | backspace              -- `send_keys(BACKSPACE)` (243)
  | enter                  -- `send_keys(ENTER)` (246)
deriving DecidableEq

/-- Outcomes of the browser primitives `send_message` performs. -/
structure SendEnv where
  cancelRequested : Bool                 -- flag at entry (198)
  waitMsgBox : Nat → Except PyExn Bool   -- box XPath `i` (211-217)
  findButtons : Except PyExn (List Bool) -- popup buttons, displayed flags (226)
  clickButton : Except PyExn Unit        -- (229)
  clearBox : Except PyExn Unit           -- (236)
  typeLine : Nat → Except PyExn Unit     -- `send_keys(line)` for line `i` (238)
  typeBreak : Nat → Except PyExn Unit    -- soft break after line `i` (240)
  pressBack : Except PyExn Unit          -- (243)
  pressEnter : Except PyExn Unit         -- (246)

/-- The popup-dismissal scan (app.py 227-231): click the first displayed
button, then break. -/
def popupLoop (env : SendEnv) : List Bool → Nat → Except PyExn Unit × List MAct
  | [], _ => (.ok (), [])
  | displayed :: rest, j =>
    if displayed then
      match env.clickButton with
      | .error e => (.error e, [.clickButton j])
      | .ok _ => (.ok (), [.clickButton j])
    else popupLoop env rest (j + 1)

/-- The popup block (app.py 224-233), wrapped in `except: pass`: its
failures never affect control flow, only the performed actions remain. -/
def popupBlock (env : SendEnv) : List MAct :=
  match env.findButtons with
  | .error _ => [.findButtons]
  | .ok flags =>
    let (_, tr) := popupLoop env flags 0
    .findButtons :: tr

/-- The typing loop (app.py 237-240): for each line of
`message.split('\n')`, send the line then a soft line-break; any raise
escapes to the outer handler. -/
def typeLines (env : SendEnv) : List Str → Nat → Except PyExn Unit × List MAct
  | [], _ => (.ok (), [])
  | line :: rest, idx =>
    match env.typeLine idx with
    | .error e => (.error e, [.typeLine line])
    | .ok _ =>
      match env.typeBreak idx with
      | .error e => (.error e, [.typeLine line, .lineBreak])
      | .ok _ =>
        let (r, tr) := typeLines env rest (idx + 1)
        (r, .typeLine line :: .lineBreak :: tr)

/-- The body of `send_message`'s outer `try` (app.py 201-248). -/
def sendBody (env : SendEnv) (message : Str) : Except PyExn Bool × List MAct :=
  let (box, tr₀) := boxLoop env.waitMsgBox MAct.findMsgBox [0, 1, 2, 3] none
  match box with
  | none => (.ok false, tr₀)   -- "Could not find the message input box" (219-221)
  | some _ =>
    let trP := popupBlock env
    match env.clearBox with
    | .error e => (.error e, tr₀ ++ trP ++ [.clearMsgBox])
    | .ok _ =>
      let (r, trT) := typeLines env (splitP (fun c => c = '\n') message) 0
      match r with
      | .error e => (.error e, tr₀ ++ trP ++ [.clearMsgBox] ++ trT)
      | .ok _ =>
        match env.pressBack with
        | .error e => (.error e, tr₀ ++ trP ++ [.clearMsgBox] ++ trT ++ [.backspace])
        | .ok _ =>
          match env.pressEnter with
          | .error e =>
            (.error e, tr₀ ++ trP ++ [.clearMsgBox] ++ trT ++ [.backspace, .enter])
          | .ok _ =>
            (.ok true, tr₀ ++ trP ++ [.clearMsgBox] ++ trT ++ [.backspace, .enter])

/-- Model of `send_message` (app.py 196-251): entry cancellation check, then the
body under `except Exception: log; return False`. -/
def sendMessage (env : SendEnv) (message : Str) :
    Except PyExn Bool × List MAct :=
  if env.cancelRequested then (.ok false, [])
  else
    match sendBody env message with
    | (.ok b, tr) => (.ok b, tr)
    | (.error _, tr) => (.ok false, tr)

/-- C10: when the cancellation flag is already set at entry,
`search_contact` and `send_message` return `False` immediately and perform
no browser interaction at all. -/
theorem cancelled_entry_returns_false (envS : SearchEnv) (envM : SendEnv)
    (contact message : Str) (hS : envS.cancelRequested = true)
    (hM : envM.cancelRequested = true) :
    searchContact envS contact = (.ok false, []) ∧
    sendMessage envM message = (.ok false, []) := by
  constructor
  · simp [searchContact, hS]
  · simp [sendMessage, hM]

/-- A search environment whose cancellation flag is set at entry. -/
def envCancelS : SearchEnv :=
  { envDeepOk with cancelRequested := true }

/-- A send environment whose cancellation flag is set at entry. -/
def envCancelM : SendEnv where
  cancelRequested := true
  waitMsgBox := fun _ => .ok true
  findButtons := .ok []
  clickButton := .ok ()
  clearBox := .ok ()
  typeLine := fun _ => .ok ()
  typeBreak := fun _ => .ok ()
  pressBack := .ok ()
  pressEnter := .ok ()

/-- C10 witness: concrete cancelled environments, empty traces. -/
theorem cancelled_entry_returns_false_witness :
    searchContact envCancelS (str "14155552671") = (.ok false, []) ∧
    sendMessage envCancelM (str "hello") = (.ok false, []) :=
  cancelled_entry_returns_false envCancelS envCancelM
    (str "14155552671") (str "hello") rfl rfl

/-! ### `send_bulk_messages` (app.py 253-301)

The per-contact `search_contact` / `send_message` calls are abstracted to
their boolean results (their internals are modelled above); the trace
records the calls, the one-second delay steps and the log lines the claims
reference.  Per-contact progress logs that merely interpolate counters are
UI text and are not recorded. -/

/-- Actions of the bulk loop. -/
inductive BAct where
  | log (msg : Str)               -- a log line (via the UI callback)
  | searchFor (i : Nat)           -- call to `search_contact` for contact `i` (273)
  | sendTo (i : Nat) (text : Str) -- call to `send_message` with the personalized text (284)
  | sleep1                        -- one second of the inter-message delay (298)
deriving DecidableEq

/-- Outcomes seen by the bulk loop.  The cancellation flag can be set
concurrently, so each read point is a separate component. -/
structure BulkEnv where
  cancelAtTop : Nat → Bool          -- flag at the top of iteration `i` (265)
  searchOk : Nat → Bool             -- result of `search_contact` for contact `i`
  sendOk : Nat → Bool               -- result of `send_message` for contact `i`
  cancelInDelay : Nat → Nat → Bool  -- flag at second `j` of the delay after contact `i` (296)

/-- The interruptible delay (app.py 295-298): sleep one second at a time,
checking the flag before each. -/
def delayLoop (env : BulkEnv) (i : Nat) : Nat → Nat → List BAct
  | 0, _ => []
  | d + 1, j =>
    if env.cancelInDelay i j then []
    else BAct.sleep1 :: delayLoop env i d (j + 1)

/-- The bulk loop (app.py 264-298), from contact index `i` with tallies
`s` (sent) and `f` (failed).  `contact['name']` (line 269) is the `name`
field — present in every contact the callers construct. -/
def bulkRun (env : BulkEnv) (message : Str) (delay : Nat) :
    List (List (Str × Str)) → Nat → Nat → Nat → Nat × Nat × List BAct
  | [], _, s, f => (s, f, [])
  | contact :: rest, i, s, f =>
    if env.cancelAtTop i then
      (s, f, [.log (str "Operation cancelled by user.")])
    else
      let contactName := (lookupField contact nameKey).getD []
      let dtr := delayLoop env i delay 0
      if env.searchOk i then
        let pm := personalizeMessage message contact contactName
        if env.sendOk i then
          let (s', f', tr) := bulkRun env message delay rest (i + 1) (s + 1) f
          (s', f', .searchFor i :: .sendTo i pm :: (dtr ++ tr))
        else
          let (s', f', tr) := bulkRun env message delay rest (i + 1) s (f + 1)
          (s', f', .searchFor i :: .sendTo i pm :: (dtr ++ tr))
      else
        let (s', f', tr) := bulkRun env message delay rest (i + 1) s (f + 1)
        (s', f', .searchFor i :: (dtr ++ tr))

/-- Model of `send_bulk_messages` (app.py 253-301): an empty contact list only logs
an error and returns — no tallies, no loop.  Otherwise the loop runs from
index 0 and the final counts are reported. -/
def sendBulkModel (env : BulkEnv) (contacts : List (List (Str × Str)))
    (message : Str) (delay : Nat) : Option (Nat × Nat) × List BAct :=
  if contacts.isEmpty then
    (none, [.log (str "No contacts found or invalid file format.")])
  else
    let (s, f, tr) := bulkRun env message delay contacts 0 0 0
    (some (s, f), tr)

/-- C8: `send_bulk_messages` on an empty contact list logs the error line
and returns immediately: counts stay untallied (`none`) and the trace
holds no search, no send and no sleep — only the log line. -/
theorem sendBulk_empty (env : BulkEnv) (message : Str) (delay : Nat) :
    sendBulkModel env [] message delay =
      (none, [BAct.log (str "No contacts found or invalid file format.")]) := rfl

/-- Is an action a `search_contact` call? -/
def isSearchAct : BAct → Bool
  | .searchFor _ => true
  | _ => false

theorem delayLoop_sleeps (env : BulkEnv) (i : Nat) :
    ∀ (d j : Nat), ∀ a ∈ delayLoop env i d j, a = BAct.sleep1
  | 0, _, a, ha => by simp [delayLoop] at ha
  | d + 1, j, a, ha => by
    unfold delayLoop at ha
    by_cases h : env.cancelInDelay i j = true
    · rw [if_pos h] at ha
      simp at ha
    · rw [if_neg h] at ha
      rcases List.mem_cons.mp ha with h1 | h1
      · exact h1
      · exact delayLoop_sleeps env i d (j + 1) a h1

theorem delayLoop_no_search (env : BulkEnv) (i d j : Nat) :
    (delayLoop env i d j).filter isSearchAct = [] := by
  rw [List.filter_eq_nil_iff]
  intro a ha
  rw [delayLoop_sleeps env i d j a ha]
  simp [isSearchAct]

/-- Tally exactness: starting from tallies `s`, `f`, the loop adds exactly
one tally per `search_contact` call in its trace. -/
theorem bulkRun_tally (env : BulkEnv) (message : Str) (delay : Nat) :
    ∀ (contacts : List (List (Str × Str))) (i s f : Nat),
      (bulkRun env message delay contacts i s f).1 +
          (bulkRun env message delay contacts i s f).2.1 =
        s + f +
          ((bulkRun env message delay contacts i s f).2.2.filter
            isSearchAct).length
  | [], i, s, f => by simp [bulkRun]
  | contact :: rest, i, s, f => by
    unfold bulkRun
    by_cases hc : env.cancelAtTop i = true
    · simp [hc, isSearchAct]
    · rw [if_neg hc]
      by_cases hs : env.searchOk i = true
      · by_cases hd : env.sendOk i = true
        · have ih := bulkRun_tally env message delay rest (i + 1) (s + 1) f
          simp only [hs, hd, if_true]
          rcases hrec : bulkRun env message delay rest (i + 1) (s + 1) f with
            ⟨s', f', tr⟩
          rw [hrec] at ih
          simp only at ih ⊢
          simp [List.filter_cons, List.filter_append, isSearchAct,
            delayLoop_no_search, ih]
          omega
        · have hd' : env.sendOk i = false := by simpa using hd
          have ih := bulkRun_tally env message delay rest (i + 1) s (f + 1)
          simp only [hs, hd', if_true, Bool.false_eq_true, if_false]
          rcases hrec : bulkRun env message delay rest (i + 1) s (f + 1) with
            ⟨s', f', tr⟩
          rw [hrec] at ih
          simp only at ih ⊢
          simp [List.filter_cons, List.filter_append, isSearchAct,
            delayLoop_no_search, ih]
          omega
      · have hs' : env.searchOk i = false := by simpa using hs
        have ih := bulkRun_tally env message delay rest (i + 1) s (f + 1)
        simp only [hs', Bool.false_eq_true, if_false]
        rcases hrec : bulkRun env message delay rest (i + 1) s (f + 1) with
          ⟨s', f', tr⟩
        rw [hrec] at ih
        simp only at ih ⊢
        simp [List.filter_cons, List.filter_append, isSearchAct,
          delayLoop_no_search, ih]
        omega

/-- Tally bound: at most one tally per remaining contact. -/
theorem bulkRun_bound (env : BulkEnv) (message : Str) (delay : Nat) :
    ∀ (contacts : List (List (Str × Str))) (i s f : Nat),
      (bulkRun env message delay contacts i s f).1 +
          (bulkRun env message delay contacts i s f).2.1 ≤
        s + f + contacts.length
  | [], i, s, f => by simp [bulkRun]
  | contact :: rest, i, s, f => by
    unfold bulkRun
    by_cases hc : env.cancelAtTop i = true
    · simp [hc]
    · rw [if_neg hc]
      by_cases hs : env.searchOk i = true
      · by_cases hd : env.sendOk i = true
        · have ih := bulkRun_bound env message delay rest (i + 1) (s + 1) f
          simp only [hs, hd, if_true]
          rcases hrec : bulkRun env message delay rest (i + 1) (s + 1) f with
            ⟨s', f', tr⟩
          rw [hrec] at ih
          simp only at ih ⊢
          simp only [List.length_cons]
          omega
        · have hd' : env.sendOk i = false := by simpa using hd
          have ih := bulkRun_bound env message delay rest (i + 1) s (f + 1)
          simp only [hs, hd', if_true, Bool.false_eq_true, if_false]
          rcases hrec : bulkRun env message delay rest (i + 1) s (f + 1) with
            ⟨s', f', tr⟩
          rw [hrec] at ih
          simp only at ih ⊢
          simp only [List.length_cons]
          omega
      · have hs' : env.searchOk i = false := by simpa using hs
        have ih := bulkRun_bound env message delay rest (i + 1) s (f + 1)
        simp only [hs', Bool.false_eq_true, if_false]
        rcases hrec : bulkRun env message delay rest (i + 1) s (f + 1) with
          ⟨s', f', tr⟩
        rw [hrec] at ih
        simp only at ih ⊢
        simp only [List.length_cons]
        omega

/-- Cooperative halt: once the flag reads true at the top of iteration
`i`, no `search_contact` call for contact `i` or any later contact occurs. -/
theorem bulkRun_no_search_after_cancel (env : BulkEnv) (message : Str)
    (delay : Nat) :
    ∀ (contacts : List (List (Str × Str))) (i₀ s f i : Nat), i₀ ≤ i →
      env.cancelAtTop i = true → ∀ j, i ≤ j →
        BAct.searchFor j ∉ (bulkRun env message delay contacts i₀ s f).2.2
  | [], _, _, _, _, _, _, _, _ => by simp [bulkRun]
  | contact :: rest, i₀, s, f, i, hle, hcan, j, hj => by
    unfold bulkRun
    by_cases hc : env.cancelAtTop i₀ = true
    · simp [hc]
    · have hne : i₀ ≠ i := fun h => hc (h ▸ hcan)
      have hlt : i₀ + 1 ≤ i := by omega
      have hij : i₀ ≠ j := by omega
      have hdel : ∀ a ∈ delayLoop env i₀ delay 0, a ≠ BAct.searchFor j := by
        intro a ha
        rw [delayLoop_sleeps env i₀ delay 0 a ha]
        simp
      rw [if_neg hc]
      by_cases hs : env.searchOk i₀ = true
      · by_cases hd : env.sendOk i₀ = true
        · have ih := bulkRun_no_search_after_cancel env message delay rest
            (i₀ + 1) (s + 1) f i hlt hcan j hj
          simp only [hs, hd, if_true]
          rcases hrec : bulkRun env message delay rest (i₀ + 1) (s + 1) f with
            ⟨s', f', tr⟩
          rw [hrec] at ih
          simp only
          intro hmem
          rcases List.mem_cons.mp hmem with h1 | h1
          · exact hij (by injection h1 with h; omega)
          rcases List.mem_cons.mp h1 with h2 | h2
          · cases h2
          rcases List.mem_append.mp h2 with h3 | h3
          · exact hdel _ h3 rfl
          · exact ih h3
        · have hd' : env.sendOk i₀ = false := by simpa using hd
          have ih := bulkRun_no_search_after_cancel env message delay rest
            (i₀ + 1) s (f + 1) i hlt hcan j hj
          simp only [hs, hd', if_true, Bool.false_eq_true, if_false]
          rcases hrec : bulkRun env message delay rest (i₀ + 1) s (f + 1) with
            ⟨s', f', tr⟩
          rw [hrec] at ih
          simp only
          intro hmem
          rcases List.mem_cons.mp hmem with h1 | h1
          · exact hij (by injection h1 with h; omega)
          rcases List.mem_cons.mp h1 with h2 | h2
          · cases h2
          rcases List.mem_append.mp h2 with h3 | h3
          · exact hdel _ h3 rfl
          · exact ih h3
      · have hs' : env.searchOk i₀ = false := by simpa using hs
        have ih := bulkRun_no_search_after_cancel env message delay rest
          (i₀ + 1) s (f + 1) i hlt hcan j hj
        simp only [hs', Bool.false_eq_true, if_false]
        rcases hrec : bulkRun env message delay rest (i₀ + 1) s (f + 1) with
          ⟨s', f', tr⟩
        rw [hrec] at ih
        simp only
        intro hmem
        rcases List.mem_cons.mp hmem with h1 | h1
        · exact hij (by injection h1 with h; omega)
        rcases List.mem_append.mp h1 with h3 | h3
        · exact hdel _ h3 rfl
        · exact ih h3

/-- C5: cooperative cancellation with accurate tallies.  Whenever the bulk
send finishes with tallies `(s, f)` and trace `tr`: each processed contact
contributed exactly one tally (one per `search_contact` call in the
trace), `s + f` never exceeds the number of contacts, and once the
cancellation flag reads true at the top of iteration `i`, no contact from
index `i` on is searched. -/
theorem sendBulk_cancel_cooperative (env : BulkEnv)
    (contacts : List (List (Str × Str))) (message : Str) (delay : Nat)
    (s f : Nat) (tr : List BAct)
    (h : sendBulkModel env contacts message delay = (some (s, f), tr)) :
    s + f ≤ contacts.length ∧
    s + f = (tr.filter isSearchAct).length ∧
    ∀ i, env.cancelAtTop i = true → ∀ j, i ≤ j → BAct.searchFor j ∉ tr := by
  have hne : contacts.isEmpty = false := by
    by_contra hx
    have : contacts.isEmpty = true := by simpa using hx
    rw [sendBulkModel, if_pos this] at h
    cases h
  rw [sendBulkModel, if_neg (by simp [hne])] at h
  rcases hrun : bulkRun env message delay contacts 0 0 0 with ⟨s₀, f₀, tr₀⟩
  rw [hrun] at h
  simp only at h
  obtain ⟨hsf, htr⟩ : (some (s₀, f₀) = some (s, f)) ∧ tr₀ = tr := by
    exact ⟨congrArg Prod.fst h, congrArg Prod.snd h⟩
  obtain ⟨hs, hf⟩ : s₀ = s ∧ f₀ = f := by
    injection hsf with h1
    exact ⟨congrArg Prod.fst h1, congrArg Prod.snd h1⟩
  subst hs; subst hf; subst htr
  refine ⟨?_, ?_, ?_⟩
  · have := bulkRun_bound env message delay contacts 0 0 0
    rw [hrun] at this
    simpa using this
  · have := bulkRun_tally env message delay contacts 0 0 0
    rw [hrun] at this
    simpa using this
  · intro i hcan j hj
    have := bulkRun_no_search_after_cancel env message delay contacts 0 0 0 i
      (Nat.zero_le i) hcan j hj
    rw [hrun] at this
    exact this

/-- A bulk environment cancelled from iteration 1 on. -/
def envBulk : BulkEnv where
  cancelAtTop := fun i => i == 1
  searchOk := fun _ => true
  sendOk := fun _ => true
  cancelInDelay := fun _ _ => false

/-- Three one-field contacts. -/
def bulkContacts : List (List (Str × Str)) :=
  [[(nameKey, str "a")], [(nameKey, str "b")], [(nameKey, str "c")]]

/-- C5 witness: a concrete cancelled run — one contact processed (one
tally, one search), contacts 1 and 2 never searched. -/
theorem sendBulk_cancel_cooperative_witness :
    1 + 0 ≤ 3 ∧
    1 + 0 = (([BAct.searchFor 0, BAct.sendTo 0 (str "hi"), BAct.sleep1,
      BAct.log (str "Operation cancelled by user.")]).filter isSearchAct).length ∧
    BAct.searchFor 1 ∉ [BAct.searchFor 0, BAct.sendTo 0 (str "hi"), BAct.sleep1,
      BAct.log (str "Operation cancelled by user.")] ∧
    BAct.searchFor 2 ∉ [BAct.searchFor 0, BAct.sendTo 0 (str "hi"), BAct.sleep1,
      BAct.log (str "Operation cancelled by user.")] := by
  have h := sendBulk_cancel_cooperative envBulk bulkContacts (str "hi") 1 1 0
    [BAct.searchFor 0, BAct.sendTo 0 (str "hi"), BAct.sleep1,
      BAct.log (str "Operation cancelled by user.")] rfl
  exact ⟨h.1, h.2.1, h.2.2 1 rfl 1 (Nat.le_refl 1), h.2.2 1 rfl 2 (by omega)⟩

/-! ### `load_contacts_from_csv` (app.py 303-319)

A parsed CSV file is a header (the `DictReader` field names) plus data
rows; each row's record maps the field names to the row's values.  A row
whose record lacks the `name` key makes the loader log an error and return
the empty list, discarding anything accumulated. -/

/-- The row loop (app.py 309-314): accumulate row records; a row without
`name` aborts with the error line. -/
def loadRows (fieldnames : List Str) : List (List Str) → Except Str (List (List (Str × Str)))
  | [] => .ok []
  | row :: rest =>
    if nameKey ∈ fieldnames then
      match loadRows fieldnames rest with
      | .ok contacts => .ok (fieldnames.zip row :: contacts)
      | .error e => .error e
    else .error (str "Error: CSV file must have a \x27name\x27 column.")

/-- Model of `load_contacts_from_csv` on a parsed file: the contact list and the
log lines.  (File-open errors, handled by the surrounding
`except Exception`, also yield `[]`; they are outside this model.) -/
def loadContactsFromCsv (fieldnames : List Str) (rows : List (List Str)) :
    List (List (Str × Str)) × List Str :=
  match loadRows fieldnames rows with
  | .ok contacts => (contacts, [])
  | .error e => ([], [e])

/-- C7: a CSV file with data rows lacking a `name` column is rejected —
the loader logs the error and returns the empty contact list, never a
partial one. -/
theorem loadCsv_rejects_missing_name (fieldnames : List Str)
    (rows : List (List Str)) (hn : nameKey ∉ fieldnames) (hrows : rows ≠ []) :
    loadContactsFromCsv fieldnames rows =
      ([], [str "Error: CSV file must have a \x27name\x27 column."]) := by
  cases rows with
  | nil => exact absurd rfl hrows
  | cons r rest =>
    unfold loadContactsFromCsv loadRows
    rw [if_neg hn]

/-- C7 witness: a concrete header without `name`. -/
theorem loadCsv_rejects_missing_name_witness :
    loadContactsFromCsv [str "phone"] [[str "123"]] =
      ([], [str "Error: CSV file must have a \x27name\x27 column."]) :=
  loadCsv_rejects_missing_name [str "phone"] [[str "123"]]
    (by decide) (by simp)

/-! ### `quit` (app.py 321-329) -/

/-- The driver's teardown-relevant state: the browser handle (`self.driver`,
`none` when absent) and the running flag. -/
structure DriverState where
  driver : Option Unit
  isRunning : Bool
deriving DecidableEq

/-- Teardown actions. -/
inductive QAct where
  | driverQuit   -- `self.driver.quit()` issued (app.py 325)
deriving DecidableEq

/-- Model of `quit()` (app.py 321-329): `if self.driver:` then `driver.quit()` under
a bare `except: pass` (so a raising `quit` — `out = .error _` — is
swallowed), then `self.is_running = False`.  Note `self.driver` is never
reset to `none`. -/
def quitModel (out : Except PyExn Unit) (st : DriverState) :
    DriverState × List QAct :=
  match st.driver with
  | some h =>
    match out with
    | .ok _ => ({ driver := some h, isRunning := false }, [QAct.driverQuit])
    | .error _ => ({ driver := some h, isRunning := false }, [QAct.driverQuit])
  | none => ({ driver := none, isRunning := false }, [])

/-- A live driver state. -/
def stLive : DriverState := { driver := some (), isRunning := true }

/-- C9 counterexample: because `self.driver` is never cleared, a second
`quit()` call on the same driver issues `driver.quit()` again — the handle
is not closed exactly once over repeated calls. -/
theorem quit_not_closed_exactly_once :
    (quitModel (.ok ()) stLive).2 = [QAct.driverQuit] ∧
    (quitModel (.ok ()) (quitModel (.ok ()) stLive).1).2 = [QAct.driverQuit] :=
  ⟨rfl, rfl⟩

/-- C9 (amended): `quit()` closes the browser when one is live and never
raises (any `driver.quit()` outcome is swallowed); repeated calls are
idempotent on the driver state (a second call leaves the state exactly as
after the first); but since the handle is never cleared, each further call
re-issues the close command, so the handle is not closed exactly once. -/
theorem quit_props (out out₂ : Except PyExn Unit) (st : DriverState) :
    (quitModel out st).1.isRunning = false ∧
    (st.driver.isSome = true → (quitModel out st).2 = [QAct.driverQuit]) ∧
    (st.driver.isSome = false → (quitModel out st).2 = []) ∧
    (quitModel out₂ (quitModel out st).1).1 = (quitModel out st).1 := by
  rcases st with ⟨d, r⟩
  cases d <;> cases out <;> cases out₂ <;>
    simp [quitModel]

/-- C9 witness: the amended properties at a live driver with a successful
`driver.quit()`. -/
theorem quit_props_witness :
    (quitModel (.ok ()) stLive).1.isRunning = false ∧
    (quitModel (.ok ()) stLive).2 = [QAct.driverQuit] ∧
    (quitModel (.ok ()) (quitModel (.ok ()) stLive).1).1 =
      (quitModel (.ok ()) stLive).1 := by
  have h := quit_props (.ok ()) (.ok ()) stLive
  exact ⟨h.1, h.2.1 rfl, h.2.2.2⟩

end WABulk
